import Mathlib

/-!
Verification development for the `bs` log forwarder (package `log`),
centred on `log/syslogforwarder.go`, its configuration helpers, and the
behaviour pinned down by the package test-suite.  Buffers are modelled as
`List Char` (one element per byte), Go `int` values that may go negative as
`Int`, and the `for` loop of `splitParts` as a fuel-indexed recursion whose
second component records whether the loop has finished within the given
fuel (`false` both when fuel runs out and when the Go code would panic on a
negative slice index).
-/

/-! ## Constants from log/syslogforwarder.go -/

def udpMessageDefaultMTU : Int := 1500

def udpHeaderSz : Int := 100

/-- Model of the mtu computation in `syslogBackend.initialize`: the value read
from the named interface is used when the read succeeds and is positive,
otherwise the default of 1500 is kept. -/
def initMTU (ifaceMTU : Option Int) : Int :=
  match ifaceMTU with
  | some m => if 0 < m then m else udpMessageDefaultMTU
  | none => udpMessageDefaultMTU

/-- Model of the udp branch of `syslogForwarder.connect`:
`f.messageLimit = f.mtu - udpHeaderSz`. -/
def udpMessageLimit (mtu : Int) : Int := mtu - udpHeaderSz

/-! ## bufferWithIdx and splitParts -/

/-- The `bufferWithIdx` struct: a rendered syslog line together with the end
offset of the header region (`headerIdx`) and the end offset of the content
region (`contentIdx`). -/
structure bufferWithIdx where
  buffer : List Char
  headerIdx : Nat
  contentIdx : Nat
deriving DecidableEq

/-- Fuel-indexed model of the chunking loop of `syslogForwarder.splitParts`
(`for contentSz > availableSz { ... }` followed by the remainder write).
Returns the datagrams handed to `writePart` in order, and `true` iff the loop
reached the end of the function within the given fuel.  When `avail` is
negative the Go code panics on `contentBuf[:availableSz]`; this is modelled,
like fuel exhaustion, by a `false` second component. -/
def splitLoopFuel : Nat → List Char → List Char → List Char → Int → List (List Char) × Bool
  | 0, _, _, _, _ => ([], false)
  | Nat.succ fuel, header, trailer, content, avail =>
    if (content.length : Int) > avail then
      if avail < 0 then ([], false)
      else
        let n := avail.toNat
        let part := header ++ content.take n ++ trailer
        let r := splitLoopFuel fuel header trailer (content.drop n) avail
        (part :: r.1, r.2)
    else if 0 < content.length then
      ([header ++ content ++ trailer], true)
    else
      ([], true)

/-- Model of `syslogForwarder.splitParts`: fast path when no limit applies or
the message fits, otherwise the message is cut around the header/trailer
regions recorded in the `bufferWithIdx`. -/
def splitPartsFuel (fuel : Nat) (messageLimit : Int) (b : bufferWithIdx) :
    List (List Char) × Bool :=
  if messageLimit ≤ 0 ∨ (b.buffer.length : Int) ≤ messageLimit then
    ([b.buffer], true)
  else
    let header := b.buffer.take b.headerIdx
    let trailer := b.buffer.drop b.contentIdx
    let content := (b.buffer.take b.contentIdx).drop b.headerIdx
    splitLoopFuel fuel header trailer content
      (messageLimit - ((header.length : Int) + (trailer.length : Int)))

/-- The splitting routine terminates on the given input: some amount of fuel
suffices to reach the end of `splitParts`. -/
def splitTerminates (messageLimit : Int) (b : bufferWithIdx) : Prop :=
  ∃ fuel, (splitPartsFuel fuel messageLimit b).2 = true

/-! ## Lemmas about the chunking loop -/

lemma splitLoopFuel_ok (header trailer : List Char) (avail : Int) (hpos : 0 < avail) :
    ∀ fuel content, content.length < fuel →
      ∃ chunks : List (List Char),
        splitLoopFuel fuel header trailer content avail
          = (chunks.map fun k => header ++ k ++ trailer, true)
        ∧ chunks.join = content
        ∧ ∀ k ∈ chunks, (k.length : Int) ≤ avail := by
  intro fuel
  induction fuel with
  | zero =>
    intro content hc
    exact absurd hc (Nat.not_lt_zero _)
  | succ n ih =>
    intro content hc
    by_cases hgt : (content.length : Int) > avail
    · have hnneg : ¬ avail < 0 := by omega
      have h1le : 1 ≤ avail.toNat := by omega
      have hlen1 : avail.toNat ≤ content.length := by omega
      have hdrop : (content.drop avail.toNat).length < n := by
        rw [List.length_drop]
        omega
      obtain ⟨chunks, hEq, hJoin, hLe⟩ := ih (content.drop avail.toNat) hdrop
      refine ⟨content.take avail.toNat :: chunks, ?_, ?_, ?_⟩
      · simp only [splitLoopFuel, if_pos hgt, if_neg hnneg, hEq, List.map_cons]
      · simp [hJoin]
      · intro k hk
        rcases List.mem_cons.1 hk with hk | hk
        · subst hk
          rw [List.length_take]
          omega
        · exact hLe k hk
    · by_cases h0 : 0 < content.length
      · refine ⟨[content], ?_, ?_, ?_⟩
        · simp only [splitLoopFuel, if_neg hgt, if_pos h0, List.map_cons, List.map_nil]
        · simp
        · intro k hk
          rcases List.mem_singleton.1 hk with rfl
          omega
      · have hce : content = [] := List.length_eq_zero.1 (by omega)
        subst hce
        refine ⟨[], ?_, by simp, by simp⟩
        have hlt : ¬ avail < 0 := by omega
        simp [splitLoopFuel, hgt, hlt]

lemma splitLoopFuel_stuck (header trailer content : List Char) (avail : Int)
    (hc : content ≠ [] ∨ avail < 0) (hav : avail ≤ 0) :
    ∀ fuel, (splitLoopFuel fuel header trailer content avail).2 = false := by
  intro fuel
  induction fuel with
  | zero => rfl
  | succ n ih =>
    have hgt : (content.length : Int) > avail := by
      rcases hc with hc | hc
      · have hlen : 0 < content.length := List.length_pos.2 hc
        omega
      · omega
    by_cases hneg : avail < 0
    · simp [splitLoopFuel, if_pos hgt, if_pos hneg]
    · have hz : avail = 0 := by omega
      subst hz
      simp only [splitLoopFuel, if_pos hgt, if_neg hneg, Int.toNat_zero, List.drop_zero]
      exact ih

lemma splitLoopFuel_zero_frags (header trailer content : List Char) :
    ∀ fuel, ∀ d ∈ (splitLoopFuel fuel header trailer content 0).1, d = header ++ trailer := by
  intro fuel
  induction fuel generalizing content with
  | zero => intro d hd; simp [splitLoopFuel] at hd
  | succ n ih =>
    intro d hd
    by_cases hgt : (content.length : Int) > 0
    · simp only [splitLoopFuel, if_pos hgt] at hd
      norm_num at hd
      rcases hd with hd | hd
      · simpa using hd
      · exact ih content d hd
    · have : content = [] := by
        have := List.length_eq_zero.1 (by omega : content.length = 0)
        exact this
      subst this
      simp [splitLoopFuel] at hd

lemma bufferWithIdx_length_take (b : bufferWithIdx)
    (h1 : b.headerIdx ≤ b.contentIdx) (h2 : b.contentIdx ≤ b.buffer.length) :
    (b.buffer.take b.headerIdx).length = b.headerIdx := by
  rw [List.length_take, min_eq_left (le_trans h1 h2)]

lemma bufferWithIdx_length_drop (b : bufferWithIdx) :
    (b.buffer.drop b.contentIdx).length = b.buffer.length - b.contentIdx :=
  List.length_drop _ _

lemma bufferWithIdx_length_content (b : bufferWithIdx)
    (h2 : b.contentIdx ≤ b.buffer.length) :
    ((b.buffer.take b.contentIdx).drop b.headerIdx).length
      = b.contentIdx - b.headerIdx := by
  rw [List.length_drop, List.length_take, min_eq_left h2]

lemma bufferWithIdx_decompose (b : bufferWithIdx)
    (h1 : b.headerIdx ≤ b.contentIdx) (h2 : b.contentIdx ≤ b.buffer.length) :
    b.buffer.take b.headerIdx
      ++ (((b.buffer.take b.contentIdx).drop b.headerIdx) ++ b.buffer.drop b.contentIdx)
      = b.buffer := by
  have e1 : b.buffer.take b.headerIdx = (b.buffer.take b.contentIdx).take b.headerIdx := by
    rw [List.take_take, min_eq_left h1]
  rw [e1, ← List.append_assoc, List.take_append_drop, List.take_append_drop]

lemma splitParts_ok (messageLimit : Int) (b : bufferWithIdx)
    (h1 : b.headerIdx ≤ b.contentIdx) (h2 : b.contentIdx ≤ b.buffer.length)
    (hlim : (b.headerIdx : Int) + ((b.buffer.length - b.contentIdx : Nat) : Int)
        < messageLimit) :
    ∃ chunks : List (List Char),
      splitPartsFuel (b.buffer.length + 1) messageLimit b
        = (chunks.map fun k => b.buffer.take b.headerIdx ++ (k ++ b.buffer.drop b.contentIdx),
           true)
      ∧ chunks.join = (b.buffer.take b.contentIdx).drop b.headerIdx
      ∧ ∀ d ∈ (splitPartsFuel (b.buffer.length + 1) messageLimit b).1,
          (d.length : Int) ≤ messageLimit := by
  have hH := bufferWithIdx_length_take b h1 h2
  have hT := bufferWithIdx_length_drop b
  have hC := bufferWithIdx_length_content b h2
  by_cases hfast : messageLimit ≤ 0 ∨ (b.buffer.length : Int) ≤ messageLimit
  · have hfit : (b.buffer.length : Int) ≤ messageLimit := by
      rcases hfast with hfast | hfast
      · omega
      · exact hfast
    have hsp : splitPartsFuel (b.buffer.length + 1) messageLimit b = ([b.buffer], true) := by
      simp [splitPartsFuel, hfast]
    refine ⟨[(b.buffer.take b.contentIdx).drop b.headerIdx], ?_, by simp, ?_⟩
    · rw [hsp, List.map_cons, List.map_nil, bufferWithIdx_decompose b h1 h2]
    · intro d hd
      rw [hsp] at hd
      rcases List.mem_singleton.1 hd with rfl
      exact hfit
  · have havail : 0 < messageLimit
        - (((b.buffer.take b.headerIdx).length : Int) + ((b.buffer.drop b.contentIdx).length : Int)) := by
      rw [hH, hT]
      omega
    obtain ⟨chunks, hEq, hJoin, hLe⟩ :=
      splitLoopFuel_ok (b.buffer.take b.headerIdx) (b.buffer.drop b.contentIdx) _ havail
        (b.buffer.length + 1) ((b.buffer.take b.contentIdx).drop b.headerIdx)
        (by rw [hC]; omega)
    have hsp : splitPartsFuel (b.buffer.length + 1) messageLimit b
        = (chunks.map fun k => b.buffer.take b.headerIdx ++ (k ++ b.buffer.drop b.contentIdx),
           true) := by
      rw [splitPartsFuel, if_neg hfast, hEq]
      simp only [List.append_assoc]
    refine ⟨chunks, hsp, hJoin, ?_⟩
    intro d hd
    rw [hsp] at hd
    rcases List.mem_map.1 hd with ⟨k, hk, rfl⟩
    have hkle := hLe k hk
    rw [List.length_append, List.length_append, hH, hT]
    push_cast
    push_cast at hkle havail
    omega

/-- C1 (amended: requires the header plus trailer regions to be strictly
shorter than the message limit; the counterexample below shows the claim
fails without this proviso): for a udp syslog sink, with
`messageLimit = mtu - 100` and `mtu` read from the configured interface
defaulting to 1500, `splitParts` finishes and every datagram it emits has
length at most `messageLimit`, every datagram is `header ++ chunk ++ trailer`,
and the concatenation of the chunks (the content regions between `headerIdx`
and `contentIdx`) is exactly the original content region. -/
theorem syslog_udp_split_correct (ifaceMTU : Option Int) (b : bufferWithIdx)
    (h1 : b.headerIdx ≤ b.contentIdx) (h2 : b.contentIdx ≤ b.buffer.length)
    (hlim : (b.headerIdx : Int) + ((b.buffer.length - b.contentIdx : Nat) : Int)
        < udpMessageLimit (initMTU ifaceMTU)) :
    ∃ chunks : List (List Char),
      splitPartsFuel (b.buffer.length + 1) (udpMessageLimit (initMTU ifaceMTU)) b
        = (chunks.map fun k => b.buffer.take b.headerIdx ++ (k ++ b.buffer.drop b.contentIdx),
           true)
      ∧ chunks.join = (b.buffer.take b.contentIdx).drop b.headerIdx
      ∧ ∀ d ∈ (splitPartsFuel (b.buffer.length + 1) (udpMessageLimit (initMTU ifaceMTU)) b).1,
          (d.length : Int) ≤ udpMessageLimit (initMTU ifaceMTU) :=
  splitParts_ok _ b h1 h2 hlim

def splitWitnessBuf : bufferWithIdx := ⟨"HHHcccccccccccc\n".data, 3, 15⟩

/-- C1 witness: a concrete oversized message (mtu 110, so messageLimit 10)
split into fragments. -/
theorem syslog_udp_split_correct_witness :
    (splitWitnessBuf.headerIdx ≤ splitWitnessBuf.contentIdx
      ∧ splitWitnessBuf.contentIdx ≤ splitWitnessBuf.buffer.length
      ∧ (splitWitnessBuf.headerIdx : Int)
          + ((splitWitnessBuf.buffer.length - splitWitnessBuf.contentIdx : Nat) : Int)
          < udpMessageLimit (initMTU (some 110)))
    ∧ ∃ chunks : List (List Char),
      splitPartsFuel (splitWitnessBuf.buffer.length + 1) (udpMessageLimit (initMTU (some 110)))
          splitWitnessBuf
        = (chunks.map fun k => splitWitnessBuf.buffer.take splitWitnessBuf.headerIdx
            ++ (k ++ splitWitnessBuf.buffer.drop splitWitnessBuf.contentIdx), true)
      ∧ chunks.join
          = (splitWitnessBuf.buffer.take splitWitnessBuf.contentIdx).drop splitWitnessBuf.headerIdx
      ∧ ∀ d ∈ (splitPartsFuel (splitWitnessBuf.buffer.length + 1)
            (udpMessageLimit (initMTU (some 110))) splitWitnessBuf).1,
          (d.length : Int) ≤ udpMessageLimit (initMTU (some 110)) :=
  ⟨⟨by decide, by decide, by decide⟩,
   syslog_udp_split_correct (some 110) splitWitnessBuf (by decide) (by decide) (by decide)⟩

def splitCexBuf : bufferWithIdx := ⟨"HHHHHHab\n".data, 6, 8⟩

/-- C1 counterexample: with messageLimit 7 (= header length 6 + trailer
length 1) and nonempty content "ab", the splitting loop never finishes, and
every datagram it does emit has an empty content region, so the
concatenation of the emitted content regions can never equal the original
content region.  Hence the claim is false as stated. -/
theorem syslog_udp_split_cex :
    ¬ splitTerminates 7 splitCexBuf
    ∧ ((splitPartsFuel 50 7 splitCexBuf).1.all fun d => decide (d = "HHHHHH\n".data)) = true
    ∧ (splitCexBuf.buffer.take splitCexBuf.contentIdx).drop splitCexBuf.headerIdx ≠ [] := by
  refine ⟨?_, by decide, by decide⟩
  rintro ⟨fuel, hf⟩
  have he : splitPartsFuel fuel 7 splitCexBuf
      = splitLoopFuel fuel ("HHHHHH".data) ("\n".data) ("ab".data) 0 := rfl
  rw [he, splitLoopFuel_stuck _ _ _ _ (Or.inl (by decide)) (by decide) fuel] at hf
  cases hf

/-- C10 (amended: the loop terminates whenever the message fits or the header
plus trailer regions are strictly shorter than the limit; when the header plus
trailer regions reach the limit and the message does not fit, the loop never
finishes — the code loops forever on availableSz = 0 and slices with a
negative index on availableSz < 0). -/
theorem splitParts_termination (messageLimit : Int) (b : bufferWithIdx)
    (h1 : b.headerIdx ≤ b.contentIdx) (h2 : b.contentIdx ≤ b.buffer.length)
    (hpos : 0 < messageLimit) :
    ((b.buffer.length : Int) ≤ messageLimit
        ∨ (b.headerIdx : Int) + ((b.buffer.length - b.contentIdx : Nat) : Int) < messageLimit →
      (splitPartsFuel (b.buffer.length + 1) messageLimit b).2 = true)
    ∧ (messageLimit ≤ (b.headerIdx : Int) + ((b.buffer.length - b.contentIdx : Nat) : Int) →
        messageLimit < (b.buffer.length : Int) →
        ¬ splitTerminates messageLimit b) := by
  have hH := bufferWithIdx_length_take b h1 h2
  have hT := bufferWithIdx_length_drop b
  have hC := bufferWithIdx_length_content b h2
  constructor
  · rintro (hfit | hlim)
    · have hsp : splitPartsFuel (b.buffer.length + 1) messageLimit b = ([b.buffer], true) := by
        simp [splitPartsFuel, Or.inr hfit]
      rw [hsp]
    · obtain ⟨chunks, hEq, -, -⟩ := splitParts_ok messageLimit b h1 h2 hlim
      rw [hEq]
  · intro hge hbig
    rintro ⟨fuel, hf⟩
    have hnfast : ¬ (messageLimit ≤ 0 ∨ (b.buffer.length : Int) ≤ messageLimit) := by
      push_neg
      omega
    have he : splitPartsFuel fuel messageLimit b
        = splitLoopFuel fuel (b.buffer.take b.headerIdx) (b.buffer.drop b.contentIdx)
            ((b.buffer.take b.contentIdx).drop b.headerIdx)
            (messageLimit - (((b.buffer.take b.headerIdx).length : Int)
              + ((b.buffer.drop b.contentIdx).length : Int))) := by
      rw [splitPartsFuel, if_neg hnfast]
    have hav : messageLimit - (((b.buffer.take b.headerIdx).length : Int)
        + ((b.buffer.drop b.contentIdx).length : Int)) ≤ 0 := by
      rw [hH, hT]
      omega
    have hcd : (b.buffer.take b.contentIdx).drop b.headerIdx ≠ []
        ∨ messageLimit - (((b.buffer.take b.headerIdx).length : Int)
            + ((b.buffer.drop b.contentIdx).length : Int)) < 0 := by
      by_cases hz : messageLimit - (((b.buffer.take b.headerIdx).length : Int)
          + ((b.buffer.drop b.contentIdx).length : Int)) < 0
      · exact Or.inr hz
      · refine Or.inl ?_
        intro hnil
        have h0 : ((b.buffer.take b.contentIdx).drop b.headerIdx).length = 0 := by
          rw [hnil]; rfl
        rw [hC] at h0
        rw [hH, hT] at hz
        omega
    rw [he, splitLoopFuel_stuck _ _ _ _ hcd hav fuel] at hf
    cases hf

def stuckBuf : bufferWithIdx := ⟨"HHHHHHHcd\n".data, 7, 9⟩

/-- C10 counterexample: a message with header length 7, content "cd" and
trailer length 1 against messageLimit 8 = header + trailer: the splitting
routine never terminates. -/
theorem splitParts_termination_cex : ¬ splitTerminates 8 stuckBuf := by
  rintro ⟨fuel, hf⟩
  have he : splitPartsFuel fuel 8 stuckBuf
      = splitLoopFuel fuel ("HHHHHHH".data) ("\n".data) ("cd".data) 0 := rfl
  rw [he, splitLoopFuel_stuck _ _ _ _ (Or.inl (by decide)) (by decide) fuel] at hf
  cases hf

/-- C10 witness: the termination theorem applied at a concrete splitting
message. -/
theorem splitParts_termination_witness :
    (splitWitnessBuf.headerIdx ≤ splitWitnessBuf.contentIdx
      ∧ splitWitnessBuf.contentIdx ≤ splitWitnessBuf.buffer.length
      ∧ (0 : Int) < 10)
    ∧ (((splitWitnessBuf.buffer.length : Int) ≤ 10
        ∨ (splitWitnessBuf.headerIdx : Int)
            + ((splitWitnessBuf.buffer.length - splitWitnessBuf.contentIdx : Nat) : Int) < 10 →
      (splitPartsFuel (splitWitnessBuf.buffer.length + 1) 10 splitWitnessBuf).2 = true)
    ∧ (10 ≤ (splitWitnessBuf.headerIdx : Int)
            + ((splitWitnessBuf.buffer.length - splitWitnessBuf.contentIdx : Nat) : Int) →
        (10 : Int) < (splitWitnessBuf.buffer.length : Int) →
        ¬ splitTerminates 10 splitWitnessBuf)) :=
  ⟨⟨by decide, by decide, by decide⟩,
   splitParts_termination 10 splitWitnessBuf (by decide) (by decide) (by decide)⟩

/-! ## Rendering of syslog lines (syslogBackend.sendMessage) -/

/-- Broken-down time, as produced by Go `time.Time` accessors. -/
structure Tm where
  year : Nat
  month : Nat
  day : Nat
  hour : Nat
  minute : Nat
  second : Nat
deriving DecidableEq

def digitChars : List Char := "0123456789".data

def digitChar (n : Nat) : Char := digitChars.getD (n % 10) '0'

/-- Two zero-padded decimal digits, as Go `Format` prints `15`, `04`, `05`. -/
def pad2 (n : Nat) : List Char := [digitChar (n / 10), digitChar n]

/-- Space-padded day of month, as Go `Format` prints `_2`. -/
def padSp2 (n : Nat) : List Char := if n < 10 then [' ', digitChar n] else pad2 n

def monthNames : List (List Char) :=
  ["Jan".data, "Feb".data, "Mar".data, "Apr".data, "May".data, "Jun".data,
   "Jul".data, "Aug".data, "Sep".data, "Oct".data, "Nov".data, "Dec".data]

def monthName (m : Nat) : List Char := monthNames.getD (m - 1) ("Jan".data)

/-- Go `time.Time.Format(time.Stamp)`, layout `Jan _2 15:04:05`, on a
broken-down local time (months of a valid `time.Time` are always 1..12). -/
def formatStamp (t : Tm) : List Char :=
  monthName t.month ++ [' '] ++ padSp2 t.day ++ [' ']
    ++ pad2 t.hour ++ [':'] ++ pad2 t.minute ++ [':'] ++ pad2 t.second

/-- Modelled from the spec: the container id trim size (12); the constant
`containerIDTrimSize` is declared in a file of this package outside src/,
and the spec fixes the short container id to the 12-character prefix. -/
def containerIDTrimSize : Nat := 12

/-- The fields of `rawLogParts` that `sendMessage` reads.  `ts` is the
record's UTC instant; a timezone (`*time.Location`) is modelled as the
conversion function `Tm → Tm` applied by `time.Time.In`. -/
structure rawLogParts where
  priority : List Char
  ts : Tm
  content : List Char
  container : List Char

/-- Model of the buffer construction in `syslogBackend.sendMessage`: the
sequence of appends building the rendered syslog line, with the recorded
`headerIdx` and `contentIdx` offsets. -/
def renderMessage (loc : Tm → Tm) (extraStart extraEnd : List Char)
    (parts : rawLogParts) (appName processName : List Char) : bufferWithIdx :=
  let contID := if containerIDTrimSize < parts.container.length
    then parts.container.take containerIDTrimSize else parts.container
  let buffer := ['<']
  let buffer := buffer ++ parts.priority
  let buffer := buffer ++ ['>']
  let buffer := buffer ++ formatStamp (loc parts.ts)
  let buffer := buffer ++ [' ']
  let buffer := buffer ++ contID
  let buffer := buffer ++ [' ']
  let buffer := buffer ++ appName
  let buffer := buffer ++ ['[']
  let buffer := buffer ++ processName
  let buffer := buffer ++ [']', ':', ' ']
  let buffer := buffer ++ extraStart
  let headerIdx := buffer.length
  let buffer := buffer ++ parts.content
  let contentIdx := buffer.length
  let buffer := buffer ++ extraEnd
  let buffer := buffer ++ ['\n']
  ⟨buffer, headerIdx, contentIdx⟩

def sendMessageLine (loc : Tm → Tm) (extraStart extraEnd : List Char)
    (parts : rawLogParts) (appName processName : List Char) : List Char :=
  (renderMessage loc extraStart extraEnd parts appName processName).buffer

/-- C2: the emitted syslog line is exactly
`<` priority `>` stamp-in-timezone ` ` trimmed-container-id ` ` appName `[`
processName `]: ` prefix content suffix newline, and the timezone affects
only the printed timestamp: for any two timezones the rendered lines share
the same bytes before and after the stamp. -/
theorem syslog_line_format (loc : Tm → Tm) (extraStart extraEnd : List Char)
    (parts : rawLogParts) (appName processName : List Char) :
    sendMessageLine loc extraStart extraEnd parts appName processName
      = '<' :: (parts.priority ++ '>' :: (formatStamp (loc parts.ts)
          ++ ' ' :: ((if containerIDTrimSize < parts.container.length
              then parts.container.take containerIDTrimSize else parts.container)
          ++ ' ' :: (appName ++ '[' :: (processName
          ++ ']' :: ':' :: ' ' :: (extraStart ++ (parts.content ++ (extraEnd ++ ['\n']))))))))
    ∧ ∀ loc₂ : Tm → Tm, ∃ P S : List Char,
        sendMessageLine loc extraStart extraEnd parts appName processName
          = P ++ (formatStamp (loc parts.ts) ++ S)
        ∧ sendMessageLine loc₂ extraStart extraEnd parts appName processName
          = P ++ (formatStamp (loc₂ parts.ts) ++ S) := by
  constructor
  · simp [sendMessageLine, renderMessage, List.append_assoc]
  · intro loc₂
    refine ⟨'<' :: (parts.priority ++ ['>']),
      ' ' :: ((if containerIDTrimSize < parts.container.length
          then parts.container.take containerIDTrimSize else parts.container)
        ++ ' ' :: (appName ++ '[' :: (processName
        ++ ']' :: ':' :: ' ' :: (extraStart ++ (parts.content ++ (extraEnd ++ ['\n'])))))),
      ?_, ?_⟩
    · simp [sendMessageLine, renderMessage, List.append_assoc]
    · simp [sendMessageLine, renderMessage, List.append_assoc]

/-- The offsets recorded by the renderer are well-formed: this discharges the
shape hypotheses of the splitting theorems for every rendered message. -/
lemma renderMessage_wf (loc : Tm → Tm) (extraStart extraEnd : List Char)
    (parts : rawLogParts) (appName processName : List Char) :
    (renderMessage loc extraStart extraEnd parts appName processName).headerIdx
      ≤ (renderMessage loc extraStart extraEnd parts appName processName).contentIdx
    ∧ (renderMessage loc extraStart extraEnd parts appName processName).contentIdx
      ≤ (renderMessage loc extraStart extraEnd parts appName processName).buffer.length := by
  constructor
  · simp [renderMessage]
  · simp [renderMessage]

example :
    sendMessageLine (fun t => { t with hour := t.hour - 4 }) [] []
      { priority := "30".data,
        ts := { year := 2015, month := 6, day := 5, hour := 16, minute := 13, second := 47 },
        content := "mymsg".data,
        container := "0123456789abwholecontainer".data }
      "coolappname".data "procx".data
    = "<30>Jun  5 12:13:47 0123456789ab coolappname[procx]: mymsg\n".data := by
  decide

example :
    sendMessageLine (fun t => { t with hour := t.hour - 3 }) [] []
      { priority := "30".data,
        ts := { year := 2015, month := 6, day := 5, hour := 16, minute := 13, second := 47 },
        content := "mymsg".data,
        container := "shortid".data }
      "coolappname".data "procx".data
    = "<30>Jun  5 13:13:47 shortid coolappname[procx]: mymsg\n".data := by
  decide

/-! ## Non-blocking submission and rate-limited drop notice -/

/-- The diagnostic emitted by `sendMessage` when a sink channel is full. -/
def noticeLine : List Char :=
  "Dropping log messages to syslog due to full channel buffer.".data

/-- The non-blocking channel send (`select` with a `default` branch) of
`sendMessage`: the message is enqueued when the channel has room, otherwise
the channel is left unchanged (the message is dropped) and the caller
returns immediately. -/
def chanTrySend (len cap : Nat) : Bool × Nat :=
  if len < cap then (true, len + 1) else (false, len)

/-- The `nextNotify` single-shot timer of the syslog backend: fed the times of
full-channel submissions (in call order), it returns the times at which the
drop notice fires.  The timer starts fired (`time.NewTimer(0)`), a notice can
only be taken when the deadline has passed, and firing resets the deadline
one minute (60 time units) ahead. -/
def dropNotices : List Nat → Nat → List Nat
  | [], _ => []
  | t :: ts, deadline =>
    if deadline ≤ t then t :: dropNotices ts (t + 60) else dropNotices ts deadline

def dropNoticeLog (ts : List Nat) (deadline : Nat) : List (List Char) :=
  (dropNotices ts deadline).map fun _ => noticeLine

lemma dropNotices_ge : ∀ (ts : List Nat) (d : Nat), ∀ n ∈ dropNotices ts d, d ≤ n := by
  intro ts
  induction ts with
  | nil => intro d n hn; simp [dropNotices] at hn
  | cons t ts ih =>
    intro d n hn
    by_cases hd : d ≤ t
    · rw [dropNotices, if_pos hd] at hn
      rcases List.mem_cons.1 hn with rfl | hn
      · exact hd
      · have := ih (t + 60) n hn
        omega
    · rw [dropNotices, if_neg hd] at hn
      exact ih d n hn

/-- C3 (amended: the notice carries no drop count, and the timer is shared by
all of the backend's sinks): submission to a sink channel never blocks — it
either enqueues (channel has room) or leaves the channel unchanged, dropping
the message — and the times at which the full-channel notice fires are at
least one minute apart. -/
theorem syslog_drop_rate_limited :
    (∀ len cap, ((chanTrySend len cap).1 = true ↔ len < cap)
      ∧ (len < cap → (chanTrySend len cap).2 = len + 1)
      ∧ (¬ len < cap → (chanTrySend len cap).2 = len))
    ∧ ∀ (ts : List Nat) (d : Nat),
        List.Chain' (fun a b => a + 60 ≤ b) (dropNotices ts d) := by
  constructor
  · intro len cap
    refine ⟨?_, ?_, ?_⟩
    · constructor
      · intro h
        by_contra hc
        simp [chanTrySend, hc] at h
      · intro h
        simp [chanTrySend, h]
    · intro h; simp [chanTrySend, h]
    · intro h; simp [chanTrySend, h]
  · intro ts
    induction ts with
    | nil => intro d; simp [dropNotices]
    | cons t ts ih =>
      intro d
      by_cases hd : d ≤ t
      · rw [dropNotices, if_pos hd]
        rw [List.chain'_cons']
        constructor
        · intro y hy
          exact dropNotices_ge ts (t + 60) y (List.mem_of_mem_head? hy)
        · exact ih (t + 60)
      · rw [dropNotices, if_neg hd]
        exact ih d

/-- C3 witness: a concrete submission that enqueues, and a concrete sequence
of full-channel submission times whose notices are one minute apart. -/
theorem syslog_drop_rate_limited_witness :
    (1 < 2 ∧ (chanTrySend 1 2).2 = 2)
    ∧ List.Chain' (fun a b => a + 60 ≤ b) (dropNotices [0, 10, 100] 0) :=
  ⟨⟨by decide, (syslog_drop_rate_limited.1 1 2).2.1 (by decide)⟩,
   syslog_drop_rate_limited.2 [0, 10, 100] 0⟩

/-- C3 counterexample: three drops before the notice and one drop before the
notice produce identical log output, and the notice line contains no digit
at all, so the notice cannot report a count of drops since the last notice,
contrary to the claim. -/
theorem syslog_drop_count_cex :
    dropNoticeLog [0, 0, 0] 0 = [noticeLine]
    ∧ dropNoticeLog [0] 0 = [noticeLine]
    ∧ noticeLine.all (fun c => !c.isDigit) = true := by
  refine ⟨by decide, by decide, by decide⟩

/-! ## Buffer ownership across fan-out (sendMessage loop and process) -/

/-- What `sendMessage` hands to a sink channel: either the original rendered
buffer or a freshly pooled copy of its bytes. -/
inductive ChanBuffer where
  | original (data : List Char)
  | pooledCopy (data : List Char)
deriving DecidableEq

/-- Model of the fan-out loop of `sendMessage`: sink `i` of `n` receives the
original buffer when `i = n - 1` and a fresh pooled copy of it otherwise. -/
def fanoutBuffers (buffer : List Char) (n : Nat) : List ChanBuffer :=
  (List.range n).map fun i =>
    if i = n - 1 then ChanBuffer.original buffer else ChanBuffer.pooledCopy buffer

/-- One event of a sink worker's interaction with the buffer pool and the
connection, in program order. -/
inductive PoolOp where
  | get (id : Nat)
  | put (id : Nat)
  | write (datagram : List Char)
deriving DecidableEq

/-- Instrumented model of the chunking loop of `splitParts`: scratch buffers
taken from the pool are numbered from `nextId`; each loop iteration does
`Get`, `writePart`, `Put` in that order.  The remainder write reuses the
original message buffer and takes nothing from the pool. -/
def splitLoopOps : Nat → List Char → List Char → List Char → Int → Nat → List PoolOp × Bool
  | 0, _, _, _, _, _ => ([], false)
  | Nat.succ fuel, header, trailer, content, avail, nextId =>
    if (content.length : Int) > avail then
      if avail < 0 then ([], false)
      else
        let n := avail.toNat
        let r := splitLoopOps fuel header trailer (content.drop n) avail (nextId + 1)
        (PoolOp.get nextId :: PoolOp.write (header ++ content.take n ++ trailer)
          :: PoolOp.put nextId :: r.1, r.2)
    else if 0 < content.length then
      ([PoolOp.write (header ++ content ++ trailer)], true)
    else
      ([], true)

/-- Instrumented `splitParts`: scratch pool ids start at 1; id 0 is reserved
for the message buffer itself. -/
def splitPartsOps (fuel : Nat) (messageLimit : Int) (b : bufferWithIdx) :
    List PoolOp × Bool :=
  if messageLimit ≤ 0 ∨ (b.buffer.length : Int) ≤ messageLimit then
    ([PoolOp.write b.buffer], true)
  else
    splitLoopOps fuel (b.buffer.take b.headerIdx) (b.buffer.drop b.contentIdx)
      ((b.buffer.take b.contentIdx).drop b.headerIdx)
      (messageLimit - (((b.buffer.take b.headerIdx).length : Int)
        + ((b.buffer.drop b.contentIdx).length : Int)))
      1

/-- Instrumented model of `syslogForwarder.process`: run `splitParts`, then
return the message buffer (id 0) to the pool.  The `Put` of the message
buffer happens only when `splitParts` returns within the given fuel: when
its loop diverges, control never reaches `f.bufferPool.Put(bufIdx.buffer)`. -/
def processOps (fuel : Nat) (messageLimit : Int) (b : bufferWithIdx) : List PoolOp :=
  (splitPartsOps fuel messageLimit b).1
    ++ (if (splitPartsOps fuel messageLimit b).2 then [PoolOp.put 0] else [])

lemma splitLoopOps_ok (header trailer : List Char) (avail : Int) (hpos : 0 < avail) :
    ∀ fuel content nextId, content.length < fuel →
      ∃ ops : List PoolOp,
        splitLoopOps fuel header trailer content avail nextId = (ops, true)
        ∧ (∀ id, ops.count (PoolOp.get id) = ops.count (PoolOp.put id))
        ∧ (∀ id, PoolOp.get id ∈ ops ∨ PoolOp.put id ∈ ops → nextId ≤ id) := by
  intro fuel
  induction fuel with
  | zero =>
    intro content nextId hc
    exact absurd hc (Nat.not_lt_zero _)
  | succ n ih =>
    intro content nextId hc
    by_cases hgt : (content.length : Int) > avail
    · have hnneg : ¬ avail < 0 := by omega
      have hdrop : (content.drop avail.toNat).length < n := by
        rw [List.length_drop]
        omega
      obtain ⟨ops, hEq, hBal, hIds⟩ := ih (content.drop avail.toNat) (nextId + 1) hdrop
      refine ⟨PoolOp.get nextId
          :: PoolOp.write (header ++ content.take avail.toNat ++ trailer)
          :: PoolOp.put nextId :: ops, ?_, ?_, ?_⟩
      · simp only [splitLoopOps, if_pos hgt, if_neg hnneg, hEq]
      · intro id
        by_cases hid : id = nextId
        · subst hid
          have hg0 : ops.count (PoolOp.get id) = 0 := by
            rw [List.count_eq_zero]
            intro hmem
            have := hIds id (Or.inl hmem)
            omega
          have hp0 : ops.count (PoolOp.put id) = 0 := by
            rw [List.count_eq_zero]
            intro hmem
            have := hIds id (Or.inr hmem)
            omega
          simp [List.count_cons, hg0, hp0]
        · have hb := hBal id
          simp [List.count_cons, hb, Ne.symm hid, hid]
      · intro id hmem
        rcases hmem with hmem | hmem
        · rcases List.mem_cons.1 hmem with hg | hmem
          · cases hg
            exact le_refl _
          · rcases List.mem_cons.1 hmem with hg | hmem
            · cases hg
            · rcases List.mem_cons.1 hmem with hg | hmem
              · cases hg
              · have := hIds id (Or.inl hmem)
                omega
        · rcases List.mem_cons.1 hmem with hp | hmem
          · cases hp
          · rcases List.mem_cons.1 hmem with hp | hmem
            · cases hp
            · rcases List.mem_cons.1 hmem with hp | hmem
              · cases hp
                exact le_refl _
              · have := hIds id (Or.inr hmem)
                omega
    · by_cases h0 : 0 < content.length
      · refine ⟨[PoolOp.write (header ++ content ++ trailer)], ?_, ?_, ?_⟩
        · simp only [splitLoopOps, if_neg hgt, if_pos h0]
        · intro id; simp
        · intro id hmem
          rcases hmem with hmem | hmem
          · simp at hmem
          · simp at hmem
      · have hce : content = [] := List.length_eq_zero.1 (by omega)
        subst hce
        refine ⟨[], ?_, by intro id; simp, by intro id hmem; rcases hmem with h | h <;> simp at h⟩
        have hlt : ¬ avail < 0 := by omega
        simp [splitLoopOps, hgt, hlt]

lemma splitLoopOps_ids (header trailer : List Char) (avail : Int) :
    ∀ fuel content nextId id,
      PoolOp.get id ∈ (splitLoopOps fuel header trailer content avail nextId).1
        ∨ PoolOp.put id ∈ (splitLoopOps fuel header trailer content avail nextId).1 →
      nextId ≤ id := by
  intro fuel
  induction fuel with
  | zero =>
    intro content nextId id h
    rcases h with h | h <;> simp [splitLoopOps] at h
  | succ n ih =>
    intro content nextId id h
    by_cases hgt : (content.length : Int) > avail
    · by_cases hneg : avail < 0
      · rcases h with h | h <;> simp [splitLoopOps, hgt, hneg] at h
      · simp only [splitLoopOps, if_pos hgt, if_neg hneg] at h
        rcases h with h | h
        · rcases List.mem_cons.1 h with hg | h
          · cases hg
            exact le_refl _
          · rcases List.mem_cons.1 h with hg | h
            · cases hg
            · rcases List.mem_cons.1 h with hg | h
              · cases hg
              · have := ih (content.drop avail.toNat) (nextId + 1) id (Or.inl h)
                omega
        · rcases List.mem_cons.1 h with hp | h
          · cases hp
          · rcases List.mem_cons.1 h with hp | h
            · cases hp
            · rcases List.mem_cons.1 h with hp | h
              · cases hp
                exact le_refl _
              · have := ih (content.drop avail.toNat) (nextId + 1) id (Or.inr h)
                omega
    · by_cases h0 : 0 < content.length
      · rcases h with h | h <;> simp [splitLoopOps, hgt, h0] at h
      · rcases h with h | h <;> simp [splitLoopOps, hgt, h0] at h

lemma splitLoopOps_snd (header trailer : List Char) (avail : Int) :
    ∀ fuel content nextId,
      (splitLoopOps fuel header trailer content avail nextId).2
        = (splitLoopFuel fuel header trailer content avail).2 := by
  intro fuel
  induction fuel with
  | zero =>
    intro content nextId
    rfl
  | succ n ih =>
    intro content nextId
    by_cases hgt : (content.length : Int) > avail
    · by_cases hneg : avail < 0
      · simp [splitLoopOps, splitLoopFuel, hgt, hneg]
      · simp only [splitLoopOps, splitLoopFuel, if_pos hgt, if_neg hneg]
        exact ih (content.drop avail.toNat) (nextId + 1)
    · by_cases h0 : 0 < content.length
      · simp [splitLoopOps, splitLoopFuel, hgt, h0]
      · simp [splitLoopOps, splitLoopFuel, hgt, h0]

/-- C7 (amended: requires the split to terminate — the message fits or the
header plus trailer regions are strictly shorter than the limit; the
counterexample below shows the ownership claim fails without this proviso):
the renderer hands the original buffer to the last of the N sinks and a
freshly pooled copy (of the same bytes) to each of the others; and a sink
worker's pool interaction for one message returns the message buffer (id 0)
to the pool exactly once, after its final write, with every scratch buffer
taken from the pool returned exactly as often as it was taken. -/
theorem syslog_fanout_ownership (buffer : List Char) (n : Nat)
    (messageLimit : Int) (b : bufferWithIdx)
    (h1 : b.headerIdx ≤ b.contentIdx) (h2 : b.contentIdx ≤ b.buffer.length)
    (hterm : (b.buffer.length : Int) ≤ messageLimit
      ∨ (b.headerIdx : Int) + ((b.buffer.length - b.contentIdx : Nat) : Int)
        < messageLimit) :
    ((fanoutBuffers buffer n).length = n
      ∧ ∀ i, i < n → (fanoutBuffers buffer n).get? i
          = some (if i = n - 1 then ChanBuffer.original buffer
              else ChanBuffer.pooledCopy buffer))
    ∧ ∃ pre : List PoolOp,
        processOps (b.buffer.length + 1) messageLimit b = pre ++ [PoolOp.put 0]
        ∧ PoolOp.put 0 ∉ pre
        ∧ ∀ id, pre.count (PoolOp.get id) = pre.count (PoolOp.put id) := by
  have hH := bufferWithIdx_length_take b h1 h2
  have hT := bufferWithIdx_length_drop b
  constructor
  · constructor
    · simp [fanoutBuffers]
    · intro i hi
      rw [fanoutBuffers, List.get?_map, List.get?_range hi]
      rfl
  · by_cases hfast : messageLimit ≤ 0 ∨ (b.buffer.length : Int) ≤ messageLimit
    · refine ⟨[PoolOp.write b.buffer], ?_, by simp, by intro id; simp⟩
      simp [processOps, splitPartsOps, hfast]
    · have hlim : (b.headerIdx : Int) + ((b.buffer.length - b.contentIdx : Nat) : Int)
          < messageLimit := by
        push_neg at hfast
        rcases hterm with hterm | hterm
        · omega
        · exact hterm
      have havail : 0 < messageLimit - (((b.buffer.take b.headerIdx).length : Int)
          + ((b.buffer.drop b.contentIdx).length : Int)) := by
        rw [hH, hT]
        omega
      obtain ⟨ops, hEq, hBal, hIds⟩ :=
        splitLoopOps_ok (b.buffer.take b.headerIdx) (b.buffer.drop b.contentIdx) _ havail
          (b.buffer.length + 1) ((b.buffer.take b.contentIdx).drop b.headerIdx) 1
          (by rw [bufferWithIdx_length_content b h2]; omega)
      refine ⟨ops, ?_, ?_, hBal⟩
      · rw [processOps, splitPartsOps, if_neg hfast, hEq]
        rfl
      · intro hmem
        have := hIds 0 (Or.inr hmem)
        omega

/-- C7 witness: the fan-out and ownership theorem applied to a concrete
three-sink configuration and a concrete oversized message. -/
theorem syslog_fanout_ownership_witness :
    (splitWitnessBuf.headerIdx ≤ splitWitnessBuf.contentIdx
      ∧ splitWitnessBuf.contentIdx ≤ splitWitnessBuf.buffer.length
      ∧ ((splitWitnessBuf.buffer.length : Int) ≤ 10
        ∨ (splitWitnessBuf.headerIdx : Int)
            + ((splitWitnessBuf.buffer.length - splitWitnessBuf.contentIdx : Nat) : Int)
            < 10))
    ∧ (((fanoutBuffers "line".data 3).length = 3
      ∧ ∀ i, i < 3 → (fanoutBuffers "line".data 3).get? i
          = some (if i = 2 then ChanBuffer.original "line".data
              else ChanBuffer.pooledCopy "line".data))
    ∧ ∃ pre : List PoolOp,
        processOps (splitWitnessBuf.buffer.length + 1) 10 splitWitnessBuf
          = pre ++ [PoolOp.put 0]
        ∧ PoolOp.put 0 ∉ pre
        ∧ ∀ id, pre.count (PoolOp.get id) = pre.count (PoolOp.put id)) :=
  ⟨⟨by decide, by decide, by decide⟩,
   syslog_fanout_ownership "line".data 3 10 splitWitnessBuf (by decide) (by decide) (by decide)⟩

def fanoutStuckBuf : bufferWithIdx := ⟨"HHHHHHHHef\n".data, 8, 10⟩

/-- C7 counterexample: with messageLimit 9 (= header length 8 + trailer
length 1) and nonempty content "ef", the split loop diverges, so the worker
keeps writing datagrams but control never reaches the `Put` of the message
buffer: the buffer is never returned to the pool, refuting the claim that
every sink worker returns its buffer exactly once after its final write. -/
theorem syslog_fanout_ownership_cex :
    (¬ ∃ fuel, PoolOp.put 0 ∈ processOps fuel 9 fanoutStuckBuf)
    ∧ PoolOp.write ("HHHHHHHH\n".data) ∈ processOps 5 9 fanoutStuckBuf := by
  constructor
  · rintro ⟨fuel, hmem⟩
    have he : processOps fuel 9 fanoutStuckBuf
        = (splitLoopOps fuel ("HHHHHHHH".data) ("\n".data) ("ef".data) 0 1).1
          ++ (if (splitLoopOps fuel ("HHHHHHHH".data) ("\n".data) ("ef".data) 0 1).2
              then [PoolOp.put 0] else []) := rfl
    rw [he, splitLoopOps_snd,
      splitLoopFuel_stuck _ _ _ _ (Or.inl (by decide)) (by decide) fuel] at hmem
    simp only [Bool.false_eq_true, if_false, List.append_nil] at hmem
    have := splitLoopOps_ids ("HHHHHHHH".data) ("\n".data) 0 fuel ("ef".data) 1 0
      (Or.inr hmem)
    omega
  · decide

/-! ## writePart and connect (deadline, short write, dial error) -/

/-- One event on the outbound connection of a sink worker, in program order. -/
inductive ConnEvent where
  | setWriteDeadline (seconds : Nat)
  | write (buf : List Char)
deriving DecidableEq

/-- Modelled from the spec: the write deadline duration (about 2 s); the
constant `forwardConnWriteTimeout` is declared in a file of this package
outside src/. -/
def forwardConnWriteTimeout : Nat := 2

/-- Go `%q` quoting restricted to printable characters without embedded
quotes or backslashes escaped: the double quote and the backslash are
escaped, everything else passes through (the URL and address strings at the
call sites contain no characters needing further escaping). -/
def goEscape : List Char → List Char
  | [] => []
  | c :: cs =>
    (if c = '"' then ['\\', '"'] else if c = '\\' then ['\\', '\\'] else [c]) ++ goEscape cs

def goQuote (s : List Char) : List Char := '"' :: (goEscape s ++ ['"'])

/-- The error of a short write in `syslogForwarder.writePart`. -/
def shortWriteMsg (addr : List Char) : List Char :=
  "[log forwarder] short write trying to write log to ".data ++ goQuote addr

/-- Model of `syslogForwarder.writePart` over the connection's observable
behaviour: `deadlineErr` is what `SetWriteDeadline` returns, `(n, writeErr)`
what `conn.Write` returns, and `addr` the remote address used in the short
write diagnostic.  The first component is the sequence of connection events
performed. -/
def writePart (deadlineErr : Option (List Char)) (n : Nat) (writeErr : Option (List Char))
    (addr : List Char) (buf : List Char) : List ConnEvent × Option (List Char) :=
  match deadlineErr with
  | some e => ([ConnEvent.setWriteDeadline forwardConnWriteTimeout], some e)
  | none =>
    match writeErr with
    | some e =>
      ([ConnEvent.setWriteDeadline forwardConnWriteTimeout, ConnEvent.write buf], some e)
    | none =>
      if n < buf.length then
        ([ConnEvent.setWriteDeadline forwardConnWriteTimeout, ConnEvent.write buf],
         some (shortWriteMsg addr))
      else
        ([ConnEvent.setWriteDeadline forwardConnWriteTimeout, ConnEvent.write buf], none)

/-- C8: every write performed by a sink worker is preceded by setting the
write deadline (about 2 seconds): the event trace of `writePart` is either
just the deadline call or the deadline call followed by the single write of
the buffer; and a write that reports fewer bytes than the buffer length
(without a write error) yields the short-write error. -/
theorem writePart_deadline_short_write (deadlineErr : Option (List Char)) (n : Nat)
    (writeErr : Option (List Char)) (addr buf : List Char) :
    ((writePart deadlineErr n writeErr addr buf).1
        = [ConnEvent.setWriteDeadline forwardConnWriteTimeout]
      ∨ (writePart deadlineErr n writeErr addr buf).1
        = [ConnEvent.setWriteDeadline forwardConnWriteTimeout, ConnEvent.write buf])
    ∧ (deadlineErr = none → writeErr = none → n < buf.length →
        (writePart deadlineErr n writeErr addr buf).2 = some (shortWriteMsg addr))
    ∧ (deadlineErr = none → writeErr = none → ¬ n < buf.length →
        (writePart deadlineErr n writeErr addr buf).2 = none) := by
  refine ⟨?_, ?_, ?_⟩
  · cases deadlineErr with
    | some e => exact Or.inl rfl
    | none =>
      cases writeErr with
      | some e => exact Or.inr rfl
      | none =>
        by_cases hn : n < buf.length
        · exact Or.inr (by simp [writePart, hn])
        · exact Or.inr (by simp [writePart, hn])
  · rintro rfl rfl hn
    simp [writePart, hn]
  · rintro rfl rfl hn
    simp [writePart, hn]

/-- C8 witness: a concrete short write (3 of 5 bytes) is an error, a full
write is not, and in both cases the deadline event precedes the write. -/
theorem writePart_deadline_short_write_witness :
    ((3 : Nat) < ("hello".data).length
      ∧ (writePart none 3 none ("127.0.0.1:514".data) ("hello".data)).2
          = some (shortWriteMsg ("127.0.0.1:514".data)))
    ∧ (¬ (5 : Nat) < ("hello".data).length
      ∧ (writePart none 5 none ("127.0.0.1:514".data) ("hello".data)).2 = none) :=
  ⟨⟨by decide,
    (writePart_deadline_short_write none 3 none ("127.0.0.1:514".data) ("hello".data)).2.1
      rfl rfl (by decide)⟩,
   ⟨by decide,
    (writePart_deadline_short_write none 5 none ("127.0.0.1:514".data) ("hello".data)).2.2
      rfl rfl (by decide)⟩⟩

/-- The error of a dial failure in `syslogForwarder.connect`:
`fmt.Errorf("[log forwarder] unable to connect to %q: %s", f.url, err)`. -/
def connectErrMsg (u cause : List Char) : List Char :=
  "[log forwarder] unable to connect to ".data ++ (goQuote u ++ (": ".data ++ cause))

/-- Model of `syslogForwarder.connect` restricted to the dial outcome: a
dial failure is wrapped in `connectErrMsg`, a successful dial is passed on. -/
def connectModel (dialResult : Except (List Char) Unit) (u : List Char) :
    Except (List Char) Unit :=
  match dialResult with
  | Except.error cause => Except.error (connectErrMsg u cause)
  | Except.ok _ => Except.ok ()

/-- Modelled from the spec: start-up dials each configured syslog forward URL
in order and aborts with the first error, surfaced to the caller unchanged
(`LogForwarder.Start` and `processMessages` are declared outside src/;
`initialize` in src/ propagates the error of each worker start with a bare
`return err`). -/
def startForwarders : List (List Char × Except (List Char) Unit) → Except (List Char) Unit
  | [] => Except.ok ()
  | (u, dial) :: rest =>
    match connectModel dial u with
    | Except.error e => Except.error e
    | Except.ok _ => startForwarders rest

/-- C9: a failing dial for a forward URL produces exactly the error
`[log forwarder] unable to connect to "<url>": <cause>`, and start-up, after
any number of successful dials, aborts with that error unchanged. -/
theorem connect_error_verbatim (pre : List (List Char × Except (List Char) Unit))
    (u cause : List Char) (rest : List (List Char × Except (List Char) Unit))
    (hok : ∀ p ∈ pre, p.2 = Except.ok ()) :
    connectModel (Except.error cause) u = Except.error (connectErrMsg u cause)
    ∧ startForwarders (pre ++ (u, Except.error cause) :: rest)
        = Except.error (connectErrMsg u cause) := by
  refine ⟨rfl, ?_⟩
  induction pre with
  | nil => rfl
  | cons p ps ih =>
    have hp : p.2 = Except.ok () := hok p (List.mem_cons_self p ps)
    have hps : ∀ q ∈ ps, q.2 = Except.ok () := fun q hq => hok q (List.mem_cons_of_mem p hq)
    obtain ⟨u', dial⟩ := p
    simp only at hp
    subst hp
    rw [List.cons_append, startForwarders]
    exact ih hps

/-- C9 witness: the exact error observed by the test-suite for the forward
URL xudp://127.0.0.1:1234. -/
theorem connect_error_verbatim_witness :
    (∀ p ∈ ([] : List (List Char × Except (List Char) Unit)), p.2 = Except.ok ())
    ∧ startForwarders [("xudp://127.0.0.1:1234".data, Except.error ("dial xudp: unknown network xudp".data))]
        = Except.error ("[log forwarder] unable to connect to \"xudp://127.0.0.1:1234\": dial xudp: unknown network xudp".data) := by
  constructor
  · intro p hp
    cases hp
  · have h := connect_error_verbatim [] ("xudp://127.0.0.1:1234".data)
      ("dial xudp: unknown network xudp".data) [] (by intro p hp; cases hp)
    rw [List.nil_append] at h
    rw [h.2]
    exact congrArg Except.error (by decide)

/-! ## Websocket sink: framed JSON emission -/

lemma getD_mem_or_default {α : Type} (l : List α) (d : α) :
    ∀ k, l.getD k d ∈ l ∨ l.getD k d = d := by
  induction l with
  | nil =>
    intro k
    right
    simp [List.getD]
  | cons c l ih =>
    intro k
    cases k with
    | zero =>
      left
      simp [List.getD]
    | succ k =>
      rcases ih k with h | h
      · left
        simp only [List.getD] at h ⊢
        exact List.mem_cons_of_mem _ h
      · right
        simpa [List.getD] using h

lemma digitChar_ne_nl (n : Nat) : digitChar n ≠ '\n' := by
  rcases getD_mem_or_default digitChars '0' (n % 10) with h | h
  · intro hEq
    rw [digitChar] at hEq
    rw [hEq] at h
    revert h
    decide
  · rw [digitChar, h]
    decide

lemma monthName_ne_nl (m : Nat) : '\n' ∉ monthName m := by
  rcases getD_mem_or_default monthNames ("Jan".data) (m - 1) with h | h
  · intro hEq
    rw [monthName] at hEq
    have : ∀ s ∈ monthNames, '\n' ∉ s := by decide
    exact this _ h hEq
  · rw [monthName, h]
    decide

lemma pad2_ne_nl (n : Nat) : '\n' ∉ pad2 n := by
  intro h
  rcases List.mem_cons.1 h with h | h
  · exact digitChar_ne_nl (n / 10) h.symm
  · rcases List.mem_singleton.1 h with h
    exact digitChar_ne_nl n h.symm

/-- Four zero-padded decimal digits, as Go `Format` prints the year `2006`
(years of interest are below 10000). -/
def pad4 (n : Nat) : List Char :=
  [digitChar (n / 1000), digitChar (n / 100), digitChar (n / 10), digitChar n]

lemma pad4_ne_nl (n : Nat) : '\n' ∉ pad4 n := by
  intro h
  rcases List.mem_cons.1 h with h | h
  · exact digitChar_ne_nl (n / 1000) h.symm
  · rcases List.mem_cons.1 h with h | h
    · exact digitChar_ne_nl (n / 100) h.symm
    · rcases List.mem_cons.1 h with h | h
      · exact digitChar_ne_nl (n / 10) h.symm
      · rcases List.mem_singleton.1 h with h
        exact digitChar_ne_nl n h.symm

/-- Go `time.Time.Format(time.RFC3339)` on a UTC instant:
`2006-01-02T15:04:05Z`. -/
def rfc3339 (t : Tm) : List Char :=
  pad4 t.year ++ ['-'] ++ pad2 t.month ++ ['-'] ++ pad2 t.day ++ ['T']
    ++ pad2 t.hour ++ [':'] ++ pad2 t.minute ++ [':'] ++ pad2 t.second ++ ['Z']

lemma rfc3339_ne_nl (t : Tm) : '\n' ∉ rfc3339 t := by
  intro h
  rw [rfc3339] at h
  simp only [List.mem_append, List.mem_singleton] at h
  casesm* _ ∨ _
  all_goals
    first
      | exact pad4_ne_nl _ (by assumption)
      | exact pad2_ne_nl _ (by assumption)
      | exact absurd (by assumption) (by decide)

/-- Modelled from the spec: the JSON record the websocket forwarder emits for
one enriched record, with exactly the fields `Date` (RFC 3339 UTC),
`Message`, `Source`, `AppName`, `Unit` in that order (the forwarder source
is declared outside src/; field set and order are fixed by the spec and the
test-suite's expected `app.Applog` decoding). -/
structure Applog where
  date : Tm
  message : List Char
  source : List Char
  appName : List Char
  unit : List Char

/-- Go `encoding/json` string escaping restricted to the characters that
occur here: the double quote, the backslash, and the control characters
newline, carriage return and tab are escaped; other characters pass through
(`\u` escaping of the remaining control characters and of `<`, `>`, `&` is
not modelled). -/
def jsonEscape : List Char → List Char
  | [] => []
  | c :: cs =>
    (if c = '"' then ['\\', '"']
     else if c = '\\' then ['\\', '\\']
     else if c = '\n' then ['\\', 'n']
     else if c = '\r' then ['\\', 'r']
     else if c = '\t' then ['\\', 't']
     else [c]) ++ jsonEscape cs

lemma jsonEscape_ne_nl (s : List Char) : '\n' ∉ jsonEscape s := by
  induction s with
  | nil => simp [jsonEscape]
  | cons c cs ih =>
    intro h
    rw [jsonEscape] at h
    rcases List.mem_append.1 h with h | h
    · by_cases h1 : c = '"'
      · simp [h1] at h
      · by_cases h2 : c = '\\'
        · simp [h1, h2] at h
        · by_cases h3 : c = '\n'
          · simp [h1, h2, h3] at h
          · by_cases h4 : c = '\r'
            · simp [h1, h2, h3, h4] at h
            · by_cases h5 : c = '\t'
              · simp [h1, h2, h3, h4, h5] at h
              · simp [h1, h2, h3, h4, h5] at h
                exact h3 h.symm
    · exact ih h

/-- Modelled from the spec: one JSON object per enriched record, newline
terminated, fields in declaration order of the platform `Applog` struct. -/
def wsLine (r : Applog) : List Char :=
  ['\x7b'] ++ ("\"Date\":\"".data ++ rfc3339 r.date
    ++ "\",\"Message\":\"".data ++ jsonEscape r.message
    ++ "\",\"Source\":\"".data ++ jsonEscape r.source
    ++ "\",\"AppName\":\"".data ++ jsonEscape r.appName
    ++ "\",\"Unit\":\"".data ++ jsonEscape r.unit
    ++ "\"".data) ++ ['\x7d']

/-- Modelled from the spec: the websocket forwarder serializes the records in
the order they are received, one line each. -/
def wsEmit (rs : List Applog) : List Char :=
  (rs.map fun r => wsLine r ++ ['\n']).join

/-- Modelled from the spec: the websocket session carries the authorization
header literal `bearer <token>`. -/
def wsHeaders (token : List Char) : List (List Char × List Char) :=
  [("Authorization".data, "bearer ".data ++ token)]

/-- Splitting a byte stream at newlines (the framing the platform end of the
websocket applies). -/
def splitNL : List Char → List (List Char)
  | [] => [[]]
  | c :: cs =>
    if c = '\n' then [] :: splitNL cs
    else
      match splitNL cs with
      | [] => [[c]]
      | l :: ls => (c :: l) :: ls

lemma splitNL_append (a rest : List Char) (ha : '\n' ∉ a) :
    splitNL (a ++ '\n' :: rest) = a :: splitNL rest := by
  induction a with
  | nil => simp [splitNL]
  | cons c a ih =>
    have hc : c ≠ '\n' := fun h => ha (h ▸ List.mem_cons_self c a)
    have ha' : '\n' ∉ a := fun h => ha (List.mem_cons_of_mem c h)
    rw [List.cons_append, splitNL, if_neg hc, ih ha']

lemma wsLine_ne_nl (r : Applog) : '\n' ∉ wsLine r := by
  intro h
  rw [wsLine] at h
  rcases List.mem_append.1 h with h | h
  · rcases List.mem_append.1 h with h | h
    · simp at h
    · simp only [List.append_assoc, List.mem_append] at h
      rcases h with h | h | h | h | h | h | h | h | h | h | h
      · revert h; decide
      · exact rfc3339_ne_nl _ h
      · revert h; decide
      · exact jsonEscape_ne_nl _ h
      · revert h; decide
      · exact jsonEscape_ne_nl _ h
      · revert h; decide
      · exact jsonEscape_ne_nl _ h
      · revert h; decide
      · exact jsonEscape_ne_nl _ h
      · revert h; decide
  · simp at h

/-- C4: the websocket sink emits exactly one newline-terminated JSON object
per enriched record — splitting the emitted byte stream at newlines recovers
exactly the per-record lines, in the order the records were received — and
the session headers consist of the authorization header
`bearer <token>`. -/
theorem ws_json_emission (rs : List Applog) (token : List Char) :
    splitNL (wsEmit rs) = rs.map wsLine ++ [[]]
    ∧ wsHeaders token = [("Authorization".data, "bearer ".data ++ token)] := by
  refine ⟨?_, rfl⟩
  induction rs with
  | nil => simp [wsEmit, splitNL]
  | cons r rs ih =>
    have h1 : wsEmit (r :: rs) = wsLine r ++ ('\n' :: wsEmit rs) := by
      simp [wsEmit]
    rw [h1, splitNL_append _ _ (wsLine_ne_nl r), ih, List.map_cons, List.cons_append]

example :
    wsLine
      { date := { year := 2015, month := 6, day := 5, hour := 16, minute := 13, second := 47 },
        message := "mymsg".data,
        source := "procx".data,
        appName := "coolappname".data,
        unit := "cont1234".data }
    = "\x7b\"Date\":\"2015-06-05T16:13:47Z\",\"Message\":\"mymsg\",\"Source\":\"procx\",\"AppName\":\"coolappname\",\"Unit\":\"cont1234\"\x7d".data := by
  decide

/-! ## Websocket heartbeat ("table tennis") -/

/-- The diagnostic line of a missed pong, `no pong response in <duration>`. -/
def noPongLine (duration : List Char) : List Char :=
  "no pong response in ".data ++ duration

/-- An observable heartbeat event: the interval timer ticking, or a pong frame
arriving with its payload. -/
inductive HbEvent where
  | tick
  | pong (payload : Nat)
deriving DecidableEq

/-- Modelled from the spec: the heartbeat session state.  `outstanding` is
the payload of the ping awaiting its pong, `nextPayload` numbers the opaque
ping payloads, `log` collects diagnostic lines, `reconnects` counts session
reconnections. -/
structure HbState where
  outstanding : Option Nat
  nextPayload : Nat
  log : List (List Char)
  reconnects : Nat
deriving DecidableEq

def hbInit : HbState := ⟨none, 0, [], 0⟩

/-- Modelled from the spec: on a tick with an unanswered ping the session is
declared dead — exactly one `no pong response in <duration>` line is logged
and the session reconnects (pinging resumes on the next tick); on a tick with
no outstanding ping a fresh ping is sent; a pong clears the outstanding ping
only when it carries the same payload. -/
def hbStep (interval : List Char) (s : HbState) : HbEvent → HbState
  | HbEvent.tick =>
    match s.outstanding with
    | some _ =>
      { outstanding := none, nextPayload := s.nextPayload,
        log := s.log ++ [noPongLine interval], reconnects := s.reconnects + 1 }
    | none =>
      { s with outstanding := some s.nextPayload, nextPayload := s.nextPayload + 1 }
  | HbEvent.pong p => if s.outstanding = some p then { s with outstanding := none } else s

def hbRun (interval : List Char) (events : List HbEvent) (s : HbState) : HbState :=
  events.foldl (hbStep interval) s

/-- The number of intervals in an event trace at which the previous ping's
pong (with matching payload) has not arrived: the state-free count of missed
heartbeats of a trace. -/
def missedPings : Option Nat → Nat → List HbEvent → Nat
  | _, _, [] => 0
  | some _, next, HbEvent.tick :: es => missedPings none next es + 1
  | none, next, HbEvent.tick :: es => missedPings (some next) (next + 1) es
  | some p, next, HbEvent.pong q :: es =>
    if p = q then missedPings none next es else missedPings (some p) next es
  | none, next, HbEvent.pong _ :: es => missedPings none next es

lemma hbRun_spec (interval : List Char) :
    ∀ (es : List HbEvent) (out : Option Nat) (next : Nat) (log : List (List Char)) (rc : Nat),
      (hbRun interval es ⟨out, next, log, rc⟩).log
          = log ++ List.replicate (missedPings out next es) (noPongLine interval)
      ∧ (hbRun interval es ⟨out, next, log, rc⟩).reconnects
          = rc + missedPings out next es := by
  intro es
  induction es with
  | nil =>
    intro out next log rc
    simp [hbRun, missedPings]
  | cons e es ih =>
    intro out next log rc
    cases e with
    | tick =>
      cases out with
      | some p =>
        have hstep : hbStep interval ⟨some p, next, log, rc⟩ HbEvent.tick
            = ⟨none, next, log ++ [noPongLine interval], rc + 1⟩ := rfl
        have hrun : hbRun interval (HbEvent.tick :: es) ⟨some p, next, log, rc⟩
            = hbRun interval es ⟨none, next, log ++ [noPongLine interval], rc + 1⟩ := by
          rw [hbRun, List.foldl_cons, hstep]
          rfl
        obtain ⟨hl, hr⟩ := ih none next (log ++ [noPongLine interval]) (rc + 1)
        rw [hrun, hl, hr]
        simp only [missedPings]
        constructor
        · rw [List.append_assoc, List.replicate_succ, List.singleton_append]
        · omega
      | none =>
        have hrun : hbRun interval (HbEvent.tick :: es) ⟨none, next, log, rc⟩
            = hbRun interval es ⟨some next, next + 1, log, rc⟩ := rfl
        obtain ⟨hl, hr⟩ := ih (some next) (next + 1) log rc
        rw [hrun, hl, hr]
        exact ⟨rfl, rfl⟩
    | pong q =>
      cases out with
      | some p =>
        by_cases hpq : p = q
        · subst hpq
          have hrun : hbRun interval (HbEvent.pong p :: es) ⟨some p, next, log, rc⟩
              = hbRun interval es ⟨none, next, log, rc⟩ := by
            rw [hbRun, List.foldl_cons]
            have hstep : hbStep interval ⟨some p, next, log, rc⟩ (HbEvent.pong p)
                = ⟨none, next, log, rc⟩ := by
              simp [hbStep]
            rw [hstep]
            rfl
          obtain ⟨hl, hr⟩ := ih none next log rc
          rw [hrun, hl, hr]
          refine ⟨?_, ?_⟩ <;> simp [missedPings]
        · have hrun : hbRun interval (HbEvent.pong q :: es) ⟨some p, next, log, rc⟩
              = hbRun interval es ⟨some p, next, log, rc⟩ := by
            rw [hbRun, List.foldl_cons]
            have hstep : hbStep interval ⟨some p, next, log, rc⟩ (HbEvent.pong q)
                = ⟨some p, next, log, rc⟩ := by
              simp [hbStep]
              intro h
              exact absurd h hpq
            rw [hstep]
            rfl
          obtain ⟨hl, hr⟩ := ih (some p) next log rc
          rw [hrun, hl, hr]
          refine ⟨?_, ?_⟩ <;> simp [missedPings, hpq]
      | none =>
        have hrun : hbRun interval (HbEvent.pong q :: es) ⟨none, next, log, rc⟩
            = hbRun interval es ⟨none, next, log, rc⟩ := by
          rw [hbRun, List.foldl_cons]
          have hstep : hbStep interval ⟨none, next, log, rc⟩ (HbEvent.pong q)
              = ⟨none, next, log, rc⟩ := by
            simp [hbStep]
          rw [hstep]
          rfl
        obtain ⟨hl, hr⟩ := ih none next log rc
        rw [hrun, hl, hr]
        refine ⟨?_, ?_⟩ <;> simp [missedPings]

/-- C5: over any heartbeat trace, the session logs exactly one
`no pong response in <duration>` line per interval whose ping went
unanswered and reconnects exactly that often; in particular a session in
which every ping receives its pong in time never logs such a line. -/
theorem ws_heartbeat (interval : List Char) (es : List HbEvent) :
    (hbRun interval es hbInit).log
        = List.replicate (missedPings none 0 es) (noPongLine interval)
    ∧ (hbRun interval es hbInit).reconnects = missedPings none 0 es
    ∧ (missedPings none 0 es = 0 → (hbRun interval es hbInit).log = []) := by
  obtain ⟨hl, hr⟩ := hbRun_spec interval es none 0 [] 0
  refine ⟨?_, ?_, ?_⟩
  · rw [hbInit] at *
    rw [hl]
    simp
  · rw [hbInit] at *
    rw [hr]
    omega
  · intro h0
    rw [hbInit] at *
    rw [hl, h0]
    simp

/-- C5 witness: a healthy two-ping session logs nothing; a session whose
first ping is never answered logs exactly one missed-pong line and
reconnects once. -/
theorem ws_heartbeat_witness :
    (hbRun ("30s".data) [HbEvent.tick, HbEvent.pong 0, HbEvent.tick, HbEvent.pong 1] hbInit).log = []
    ∧ (hbRun ("30s".data) [HbEvent.tick, HbEvent.tick] hbInit).log
        = [noPongLine ("30s".data)]
    ∧ (hbRun ("30s".data) [HbEvent.tick, HbEvent.tick] hbInit).reconnects = 1 := by
  refine ⟨?_, ?_, ?_⟩
  · exact (ws_heartbeat ("30s".data) [HbEvent.tick, HbEvent.pong 0, HbEvent.tick, HbEvent.pong 1]).2.2
      (by decide)
  · have h := (ws_heartbeat ("30s".data) [HbEvent.tick, HbEvent.tick]).1
    have e : missedPings none 0 [HbEvent.tick, HbEvent.tick] = 1 := by decide
    rw [e] at h
    rw [h]
    rfl
  · have h := (ws_heartbeat ("30s".data) [HbEvent.tick, HbEvent.tick]).2.1
    have e : missedPings none 0 [HbEvent.tick, HbEvent.tick] = 1 := by decide
    rw [e] at h
    exact h

/-! ## Lenient syslog parser -/

/-- Which of the accepted line shapes matched (spec section 4.2): BSD with an
ISO-8601 timestamp, classic BSD, RFC 5424 numbered syslog, or the lenient
fallback. -/
inductive SyslogShape where
  | isoBsd
  | classicBsd
  | rfc5424
  | fallback
deriving DecidableEq

/-- Modelled from the spec: the record the lenient parser always returns
(the parser source is declared outside src/; shapes and fields follow the
spec and the test-suite's expected `syslogparser.LogParts` maps).  Fields
absent from the matched shape stay at their empty defaults. -/
structure LogParts where
  priority : Nat
  facility : Nat
  severity : Nat
  timestamp : List Char
  hostname : List Char
  tag : List Char
  procId : List Char
  content : List Char
  appName : List Char
  message : List Char
  msgId : List Char
  structuredData : List Char
  version : Nat
  shape : SyslogShape
deriving DecidableEq

def emptyParts : LogParts :=
  { priority := 0, facility := 0, severity := 0, timestamp := [], hostname := [],
    tag := [], procId := [], content := [], appName := [], message := [],
    msgId := [], structuredData := [], version := 0, shape := SyslogShape.fallback }

def natOfDigits (ds : List Char) : Nat :=
  ds.foldl (fun a c => a * 10 + (c.toNat - 48)) 0

/-- The `<PRI>` priority of a syslog line: the digits between a leading
`<` and a `>`; a line without a well-formed priority keeps priority 0 and is
handed on whole. -/
def parsePriority (l : List Char) : Nat × List Char :=
  match l with
  | '<' :: rest =>
    (match rest.dropWhile Char.isDigit with
     | '>' :: rem =>
       if rest.takeWhile Char.isDigit = [] then (0, l)
       else (natOfDigits (rest.takeWhile Char.isDigit), rem)
     | _ => (0, l))
  | _ => (0, l)

/-- The next space-delimited token and the rest of the line. -/
def nextToken (l : List Char) : List Char × List Char :=
  ((l.dropWhile fun c => c = ' ').takeWhile fun c => c ≠ ' ',
   (l.dropWhile fun c => c = ' ').dropWhile fun c => c ≠ ' ')

/-- The tag of a `tag[pid]:` token: everything before the `[`, with a
trailing `:` stripped. -/
def tagOf (tp : List Char) : List Char :=
  (tp.takeWhile fun c => c ≠ '[').takeWhile fun c => c ≠ ':'

/-- The pid of a `tag[pid]:` token: the characters between `[` and `]`,
empty when the token carries no pid. -/
def pidOf (tp : List Char) : List Char :=
  ((tp.dropWhile fun c => c ≠ '[').drop 1).takeWhile fun c => c ≠ ']'

/-- A token that looks like an ISO-8601 timestamp. -/
def isIsoTok (t : List Char) : Bool := t.contains 'T' && t.contains '-'

/-- Modelled from the spec: RFC 5424 numbered syslog,
`<PRI>1 timestamp host app pid msgid sd content`. -/
def shapeRfc5424 (rest : List Char) : Option LogParts :=
  let t0 := nextToken rest
  let t1 := nextToken t0.2
  let t2 := nextToken t1.2
  let t3 := nextToken t2.2
  let t4 := nextToken t3.2
  let t5 := nextToken t4.2
  let t6 := nextToken t5.2
  if t0.1 = ['1'] ∧ t1.1 ≠ [] ∧ t2.1 ≠ [] ∧ t3.1 ≠ [] ∧ t4.1 ≠ [] ∧ t5.1 ≠ []
      ∧ t6.1 ≠ [] then
    some { emptyParts with
      timestamp := t1.1, hostname := t2.1, appName := t3.1, tag := t3.1,
      procId := t4.1, msgId := t5.1, structuredData := t6.1,
      content := t6.2.dropWhile fun c => c = ' ',
      message := t6.2.dropWhile fun c => c = ' ',
      version := 1, shape := SyslogShape.rfc5424 }
  else none

/-- Modelled from the spec: BSD with an ISO-8601 timestamp,
`<PRI>YYYY-MM-DDThh:mm:ssZ host tag[pid]: content`. -/
def shapeIsoBsd (rest : List Char) : Option LogParts :=
  let t0 := nextToken rest
  let t1 := nextToken t0.2
  let t2 := nextToken t1.2
  if isIsoTok t0.1 = true ∧ t1.1 ≠ [] ∧ t2.1 ≠ [] then
    some { emptyParts with
      timestamp := t0.1, hostname := t1.1, tag := tagOf t2.1, procId := pidOf t2.1,
      content := t2.2.dropWhile fun c => c = ' ',
      shape := SyslogShape.isoBsd }
  else none

/-- Modelled from the spec and test vectors: classic BSD,
`<PRI>Mon d hh:mm:ss host tag[pid]: content`; the pid is discarded (the
test-suite expects no `proc_id` key for this shape). -/
def shapeClassicBsd (rest : List Char) : Option LogParts :=
  let t0 := nextToken rest
  let t1 := nextToken t0.2
  let t2 := nextToken t1.2
  let t3 := nextToken t2.2
  let t4 := nextToken t3.2
  if t0.1 ≠ [] ∧ t1.1 ≠ [] ∧ t2.1 ≠ [] ∧ t3.1 ≠ [] ∧ t4.1 ≠ [] then
    some { emptyParts with
      timestamp := t0.1 ++ [' '] ++ t1.1 ++ [' '] ++ t2.1,
      hostname := t3.1, tag := tagOf t4.1,
      content := t4.2.dropWhile fun c => c = ' ',
      shape := SyslogShape.classicBsd }
  else none

/-- The priority decomposition of spec section 4.2:
`facility = PRI / 8`, `severity = PRI % 8`. -/
def withPriority (pri : Nat) (r : LogParts) : LogParts :=
  { r with priority := pri, facility := pri / 8, severity := pri % 8 }

/-- The shape dispatch: the three shapes in priority order, with the lenient
fallback record carrying the whole remainder as content. -/
def lenientBase (rest : List Char) : LogParts :=
  ((shapeRfc5424 rest).orElse fun _ =>
    (shapeIsoBsd rest).orElse fun _ => shapeClassicBsd rest).getD
    { emptyParts with content := rest }

/-- Modelled from the spec: the lenient parser — always yields a record. -/
def lenientParse (l : List Char) : LogParts :=
  withPriority (parsePriority l).1 (lenientBase (parsePriority l).2)

/-- The `Parse` entry point never fails: the error component is never
populated. -/
def lenientParseE (l : List Char) : Except (List Char) LogParts :=
  Except.ok (lenientParse l)

lemma withPriority_shape (pri : Nat) (r : LogParts) :
    (withPriority pri r).shape = r.shape := rfl

lemma shapeRfc5424_shape (rest : List Char) (r : LogParts)
    (h : shapeRfc5424 rest = some r) : r.shape = SyslogShape.rfc5424 := by
  rw [shapeRfc5424] at h
  split at h
  · cases h
    rfl
  · cases h

lemma shapeIsoBsd_fields (rest : List Char) (r : LogParts)
    (h : shapeIsoBsd rest = some r) :
    r.shape = SyslogShape.isoBsd ∧ r.appName = [] ∧ r.message = []
      ∧ r.msgId = [] ∧ r.structuredData = [] ∧ r.version = 0 := by
  rw [shapeIsoBsd] at h
  split at h
  · cases h
    exact ⟨rfl, rfl, rfl, rfl, rfl, rfl⟩
  · cases h

lemma shapeClassicBsd_fields (rest : List Char) (r : LogParts)
    (h : shapeClassicBsd rest = some r) :
    r.shape = SyslogShape.classicBsd ∧ r.procId = [] ∧ r.appName = []
      ∧ r.message = [] ∧ r.msgId = [] ∧ r.structuredData = [] ∧ r.version = 0 := by
  rw [shapeClassicBsd] at h
  split at h
  · cases h
    exact ⟨rfl, rfl, rfl, rfl, rfl, rfl, rfl⟩
  · cases h

lemma lenientBase_cases (rest : List Char) :
    shapeRfc5424 rest = some (lenientBase rest)
    ∨ shapeIsoBsd rest = some (lenientBase rest)
    ∨ shapeClassicBsd rest = some (lenientBase rest)
    ∨ lenientBase rest = { emptyParts with content := rest } := by
  rcases h1 : shapeRfc5424 rest with _ | r1
  · rcases h2 : shapeIsoBsd rest with _ | r2
    · rcases h3 : shapeClassicBsd rest with _ | r3
      · right; right; right
        rw [lenientBase, h1, h2, h3]
        rfl
      · right; right; left
        rw [lenientBase, h1, h2, h3]
        rfl
    · right; left
      rw [lenientBase, h1, h2]
      rfl
  · left
    rw [lenientBase, h1]
    rfl

lemma withPriority_timestamp (pri : Nat) (r : LogParts) :
    (withPriority pri r).timestamp = r.timestamp := rfl

lemma withPriority_hostname (pri : Nat) (r : LogParts) :
    (withPriority pri r).hostname = r.hostname := rfl

lemma withPriority_tag (pri : Nat) (r : LogParts) :
    (withPriority pri r).tag = r.tag := rfl

lemma withPriority_procId (pri : Nat) (r : LogParts) :
    (withPriority pri r).procId = r.procId := rfl

lemma withPriority_appName (pri : Nat) (r : LogParts) :
    (withPriority pri r).appName = r.appName := rfl

lemma withPriority_message (pri : Nat) (r : LogParts) :
    (withPriority pri r).message = r.message := rfl

lemma withPriority_msgId (pri : Nat) (r : LogParts) :
    (withPriority pri r).msgId = r.msgId := rfl

lemma withPriority_structuredData (pri : Nat) (r : LogParts) :
    (withPriority pri r).structuredData = r.structuredData := rfl

lemma withPriority_version (pri : Nat) (r : LogParts) :
    (withPriority pri r).version = r.version := rfl

/-- C6: the lenient parser always returns a record (the error side of
`Parse` is never populated); the priority is decomposed as
`facility = PRI / 8` and `severity = PRI % 8`; and the fields absent from
the matched shape are left empty (classic BSD leaves pid, app name, message,
msg id, structured data and version empty; ISO BSD leaves app name, message,
msg id, structured data and version empty; the fallback leaves everything
but the content empty). -/
theorem lenient_parse_total (l : List Char) :
    ∃ r : LogParts, lenientParseE l = Except.ok r
      ∧ r.facility = r.priority / 8
      ∧ r.severity = r.priority % 8
      ∧ (r.shape = SyslogShape.classicBsd →
          r.procId = [] ∧ r.appName = [] ∧ r.message = [] ∧ r.msgId = []
            ∧ r.structuredData = [] ∧ r.version = 0)
      ∧ (r.shape = SyslogShape.isoBsd →
          r.appName = [] ∧ r.message = [] ∧ r.msgId = [] ∧ r.structuredData = []
            ∧ r.version = 0)
      ∧ (r.shape = SyslogShape.fallback →
          r.timestamp = [] ∧ r.hostname = [] ∧ r.tag = [] ∧ r.procId = []
            ∧ r.appName = [] ∧ r.message = [] ∧ r.msgId = [] ∧ r.structuredData = []
            ∧ r.version = 0) := by
  refine ⟨withPriority (parsePriority l).1 (lenientBase (parsePriority l).2),
    rfl, rfl, rfl, ?_, ?_, ?_⟩
  · intro hsh
    rw [withPriority_shape] at hsh
    rcases lenientBase_cases (parsePriority l).2 with h | h | h | h
    · exact absurd ((shapeRfc5424_shape _ _ h).symm.trans hsh) (by decide)
    · exact absurd ((shapeIsoBsd_fields _ _ h).1.symm.trans hsh) (by decide)
    · obtain ⟨-, hp2, ha2, hm2, hmid2, hsd2, hv2⟩ := shapeClassicBsd_fields _ _ h
      exact ⟨(withPriority_procId _ _).trans hp2,
        (withPriority_appName _ _).trans ha2,
        (withPriority_message _ _).trans hm2,
        (withPriority_msgId _ _).trans hmid2,
        (withPriority_structuredData _ _).trans hsd2,
        (withPriority_version _ _).trans hv2⟩
    · rw [h] at hsh
      exact absurd (show SyslogShape.fallback = SyslogShape.classicBsd from hsh) (by decide)
  · intro hsh
    rw [withPriority_shape] at hsh
    rcases lenientBase_cases (parsePriority l).2 with h | h | h | h
    · exact absurd ((shapeRfc5424_shape _ _ h).symm.trans hsh) (by decide)
    · obtain ⟨-, ha2, hm2, hmid2, hsd2, hv2⟩ := shapeIsoBsd_fields _ _ h
      exact ⟨(withPriority_appName _ _).trans ha2,
        (withPriority_message _ _).trans hm2,
        (withPriority_msgId _ _).trans hmid2,
        (withPriority_structuredData _ _).trans hsd2,
        (withPriority_version _ _).trans hv2⟩
    · exact absurd ((shapeClassicBsd_fields _ _ h).1.symm.trans hsh) (by decide)
    · rw [h] at hsh
      exact absurd (show SyslogShape.fallback = SyslogShape.isoBsd from hsh) (by decide)
  · intro hsh
    rw [withPriority_shape] at hsh
    rcases lenientBase_cases (parsePriority l).2 with h | h | h | h
    · exact absurd ((shapeRfc5424_shape _ _ h).symm.trans hsh) (by decide)
    · exact absurd ((shapeIsoBsd_fields _ _ h).1.symm.trans hsh) (by decide)
    · exact absurd ((shapeClassicBsd_fields _ _ h).1.symm.trans hsh) (by decide)
    · rw [h]
      exact ⟨rfl, rfl, rfl, rfl, rfl, rfl, rfl, rfl, rfl⟩

/-- C6 witness: the parse theorem applied to the classic-BSD line of the
test-suite. -/
theorem lenient_parse_total_witness :
    ∃ r : LogParts,
      lenientParseE ("<31>Dec 26 05:08:46 hostname tag[296]: content".data) = Except.ok r
      ∧ r.facility = r.priority / 8
      ∧ r.severity = r.priority % 8
      ∧ (r.shape = SyslogShape.classicBsd →
          r.procId = [] ∧ r.appName = [] ∧ r.message = [] ∧ r.msgId = []
            ∧ r.structuredData = [] ∧ r.version = 0)
      ∧ (r.shape = SyslogShape.isoBsd →
          r.appName = [] ∧ r.message = [] ∧ r.msgId = [] ∧ r.structuredData = []
            ∧ r.version = 0)
      ∧ (r.shape = SyslogShape.fallback →
          r.timestamp = [] ∧ r.hostname = [] ∧ r.tag = [] ∧ r.procId = []
            ∧ r.appName = [] ∧ r.message = [] ∧ r.msgId = [] ∧ r.structuredData = []
            ∧ r.version = 0) :=
  lenient_parse_total ("<31>Dec 26 05:08:46 hostname tag[296]: content".data)

example :
    lenientParse ("<30>2015-06-05T16:13:47Z vagrant-ubuntu-trusty-64 docker/00dfa98fe8e0[4843]: hey".data)
    = { priority := 30, facility := 3, severity := 6,
        timestamp := "2015-06-05T16:13:47Z".data,
        hostname := "vagrant-ubuntu-trusty-64".data,
        tag := "docker/00dfa98fe8e0".data,
        procId := "4843".data,
        content := "hey".data,
        appName := [], message := [], msgId := [], structuredData := [],
        version := 0, shape := SyslogShape.isoBsd } := by
  decide

example :
    lenientParse ("<31>Dec 26 05:08:46 hostname tag[296]: content".data)
    = { priority := 31, facility := 3, severity := 7,
        timestamp := "Dec 26 05:08:46".data,
        hostname := "hostname".data,
        tag := "tag".data,
        procId := [],
        content := "content".data,
        appName := [], message := [], msgId := [], structuredData := [],
        version := 0, shape := SyslogShape.classicBsd } := by
  decide

example :
    lenientParse ("<165>1 2003-08-24T05:14:15.000003Z 192.0.2.1 myproc 8710 - - content".data)
    = { priority := 165, facility := 20, severity := 5,
        timestamp := "2003-08-24T05:14:15.000003Z".data,
        hostname := "192.0.2.1".data,
        tag := "myproc".data,
        procId := "8710".data,
        content := "content".data,
        appName := "myproc".data, message := "content".data,
        msgId := "-".data, structuredData := "-".data,
        version := 1, shape := SyslogShape.rfc5424 } := by
  decide
